import Mathlib

/-!
Verification development for the msvc-headers-downloader repository.

The definitions below are a shallow embedding of `msvc_headers_downloader.py`:
pure helpers become Lean functions over `String`/`List Char`, the mutable
filesystem and network become explicit state passed through the functions,
and Python exceptions become explicit error values.  External collaborators
(the HTTP session, `hashlib.sha256`, the `msiextract` process and the zip
extractor) are modelled as parameters, exactly as the spec treats them.
-/

/-! ### String helpers (models of the Python `str` operations used) -/

/-- Model of `str.startswith`: prefix test on the character list. -/
def strStartsWith (s pre : String) : Bool :=
  pre.data.isPrefixOf s.data

/-- Model of `str.endswith`: suffix test on the character list. -/
def strEndsWith (s suf : String) : Bool :=
  suf.data.isSuffixOf s.data

/-- Model of `str.split(sep, 1)` restricted to the part after the first
separator: returns `none` when the separator does not occur. -/
def charsSplitFirst : List Char → Char → Option (List Char × List Char)
  | [], _ => none
  | c :: cs, sep =>
    if c = sep then some ([], cs)
    else
      match charsSplitFirst cs sep with
      | none => none
      | some (a, b) => some (c :: a, b)

/-- Model of `str.split(sep)` (and of `str.rsplit(sep)`, which produces the
same groups) on a single-character separator. -/
def splitChars (sep : Char) : List Char → List (List Char)
  | [] => [[]]
  | c :: cs =>
    match splitChars sep cs with
    | [] => [[]]
    | g :: gs => if c = sep then [] :: g :: gs else (c :: g) :: gs

/-- Model of `int(s)` on the nonnegative decimal digit strings that occur in
manifest version fields (error cases of `int` are outside the manifest data). -/
def digitsToNat (cs : List Char) : Nat :=
  cs.foldl (fun n c => n * 10 + (c.toNat - 48)) 0

/-- Model of `str.lower` (ASCII case folding suffices for hex digests). -/
def strLower (s : String) : String :=
  ⟨s.data.map Char.toLower⟩

/-- Model of `str.replace(a, b)` for single-character arguments. -/
def replaceChar (a b : Char) (s : String) : String :=
  ⟨s.data.map fun c => if c = a then b else c⟩

/-- `s.rsplit('\\')[-1]`: the final backslash-separated path component. -/
def finalComponent (s : String) : String :=
  ⟨(splitChars '\x5c' s.data).getLastD []⟩

/-! ### Data model (manifest JSON objects used by the program) -/

/-- A payload entry of a package in the manifest. -/
structure Payload where
  fileName : String
  url : String
  sha256 : String
  deriving DecidableEq

/-- A package entry of the manifest. -/
structure Package where
  id : String
  version : String
  type : String
  payloads : List Payload
  deriving DecidableEq

/-- The part of the downloaded manifest consumed by package selection. -/
structure Manifest where
  packages : List Package
  deriving DecidableEq

/-- Python exceptions surfaced by the embedded functions.  `resolutionError`
models the dedicated error type the spec postulates; the source never
defines or raises it. -/
inductive PyError where
  | indexError
  | resolutionError (msg : String)
  | calledProcessError (archive : String)
  | zipError (archive : String)
  deriving DecidableEq

/-! ### Package selection (`parse_version`, `is_sdk_package`,
`select_sdk_package` in `msvc_headers_downloader.py`) -/

/-- `parse_version(v)`: `[int(x) for x in v.split('.')]`. -/
def parse_version (v : String) : List Nat :=
  (splitChars '.' v.data).map digitsToNat

/-- Python `<` on lists of integers (lexicographic, a strict prefix is
smaller). -/
def verLt : List Nat → List Nat → Bool
  | [], [] => false
  | [], _ :: _ => true
  | _ :: _, [] => false
  | a :: as, b :: bs => if a < b then true else if b < a then false else verLt as bs

/-- `is_sdk_package(p)`: the id starts with `'Win10SDK_'` and the part of the
id after the first underscore is nonempty and starts with a digit (Python
returns the falsy `''` for an empty remainder, which the filter treats as
false). -/
def is_sdk_package (p : Package) : Bool :=
  if strStartsWith p.id "Win10SDK_" then
    match charsSplitFirst p.id.data '_' with
    | some (_, version) =>
      match version with
      | [] => false
      | c :: _ => c.isDigit
    | none => false
  else false

/-- The ordering used by `sdks.sort(key=lambda x: parse_version(x['version']),
reverse=True)`: `x` may stay before `y` exactly when `x`'s parsed version is
not smaller than `y`'s.  A stable sort with this relation is exactly Python's
stable descending sort. -/
def sdkGE (x y : Package) : Prop :=
  verLt (parse_version x.version) (parse_version y.version) = false

instance : DecidableRel sdkGE := fun _ _ =>
  inferInstanceAs (Decidable (_ = false))

/-- `select_sdk_package(manifest)`: filter to SDK packages, stable-sort by
parsed version descending, take index 0.  Indexing an empty list raises
`IndexError` in Python. -/
def select_sdk_package (m : Manifest) : Except PyError Package :=
  match List.insertionSort sdkGE (m.packages.filter fun p => is_sdk_package p) with
  | [] => .error .indexError
  | p :: _ => .ok p

/-! ### Facts about `verLt` (Python integer-list comparison) -/

theorem verLt_irrefl : ∀ a : List Nat, verLt a a = false := by
  intro a
  induction a with
  | nil => rfl
  | cons x xs ih => simp [verLt, ih]

theorem verLt_asymm : ∀ a b : List Nat, verLt a b = true → verLt b a = false := by
  intro a
  induction a with
  | nil =>
    intro b _
    cases b with
    | nil => rfl
    | cons y ys => rfl
  | cons x xs ih =>
    intro b h
    cases b with
    | nil => simp [verLt] at h
    | cons y ys =>
      simp only [verLt] at h ⊢
      by_cases hxy : x < y
      · have : ¬ y < x := Nat.lt_asymm hxy
        simp [hxy, this]
      · by_cases hyx : y < x
        · simp [hxy, hyx] at h
        · simp [hxy, hyx] at h ⊢
          exact ih ys h

theorem verLt_connex : ∀ a b : List Nat,
    verLt a b = false → verLt b a = false → a = b := by
  intro a
  induction a with
  | nil =>
    intro b h _
    cases b with
    | nil => rfl
    | cons y ys => simp [verLt] at h
  | cons x xs ih =>
    intro b h h'
    cases b with
    | nil => simp [verLt] at h'
    | cons y ys =>
      simp only [verLt] at h h'
      by_cases hxy : x < y
      · simp [hxy] at h
      · by_cases hyx : y < x
        · simp [hyx, Nat.lt_asymm hyx] at h'
        · have hx : x = y := Nat.le_antisymm (Nat.ge_of_not_lt hyx) (Nat.ge_of_not_lt hxy)
          simp [hxy, hyx] at h
          simp [hyx, hxy] at h'
          rw [hx, ih ys h h']

theorem verLt_trans : ∀ a b c : List Nat,
    verLt a b = true → verLt b c = true → verLt a c = true := by
  intro a
  induction a with
  | nil =>
    intro b c hab hbc
    cases b with
    | nil => simp [verLt] at hab
    | cons y ys =>
      cases c with
      | nil => simp [verLt] at hbc
      | cons z zs => rfl
  | cons x xs ih =>
    intro b c hab hbc
    cases b with
    | nil => simp [verLt] at hab
    | cons y ys =>
      cases c with
      | nil => simp [verLt] at hbc
      | cons z zs =>
        simp only [verLt] at hab hbc ⊢
        by_cases hxy : x < y
        · by_cases hyz : y < z
          · simp [Nat.lt_trans hxy hyz]
          · by_cases hzy : z < y
            · simp [hyz, hzy] at hbc
            · have : y = z := Nat.le_antisymm (Nat.ge_of_not_lt hzy) (Nat.ge_of_not_lt hyz)
              subst this
              simp [hxy]
        · by_cases hyx : y < x
          · simp [hxy, hyx] at hab
          · have hx : x = y := Nat.le_antisymm (Nat.ge_of_not_lt hyx) (Nat.ge_of_not_lt hxy)
            subst hx
            by_cases hxz : x < z
            · simp [hxz]
            · by_cases hzx : z < x
              · simp [hzx, Nat.lt_asymm hzx] at hbc
              · simp [hxz, hzx] at hab hbc ⊢
                exact ih ys zs hab hbc

theorem sdkGE_total : ∀ x y : Package, sdkGE x y ∨ sdkGE y x := by
  intro x y
  unfold sdkGE
  by_cases h : verLt (parse_version x.version) (parse_version y.version) = true
  · exact Or.inr (verLt_asymm _ _ h)
  · exact Or.inl (Bool.not_eq_true _ ▸ h)

theorem sdkGE_trans : ∀ x y z : Package, sdkGE x y → sdkGE y z → sdkGE x z := by
  intro x y z hxy hyz
  unfold sdkGE at hxy hyz ⊢
  by_cases h : verLt (parse_version x.version) (parse_version z.version) = true
  · exfalso
    by_cases h1 : verLt (parse_version x.version) (parse_version y.version) = true
    · rw [hxy] at h1; exact Bool.false_ne_true h1
    · by_cases h2 : verLt (parse_version y.version) (parse_version x.version) = true
      · have := verLt_trans _ _ _ h2 h
        rw [hyz] at this; exact Bool.false_ne_true this
      · have heq := verLt_connex _ _ hxy (Bool.not_eq_true _ ▸ h2)
        rw [heq] at h
        rw [hyz] at h; exact Bool.false_ne_true h
  · exact Bool.not_eq_true _ ▸ h

/-! ### Head of the stable descending sort is a maximal element -/

theorem insertionSort_head_max (l : List Package) (hne : l ≠ []) :
    ∃ b t, List.insertionSort sdkGE l = b :: t ∧ b ∈ l ∧ ∀ q ∈ l, sdkGE b q := by
  haveI : IsTotal Package sdkGE := ⟨sdkGE_total⟩
  haveI : IsTrans Package sdkGE := ⟨fun a b c => sdkGE_trans a b c⟩
  have hperm := List.perm_insertionSort sdkGE l
  have hsorted := List.sorted_insertionSort sdkGE l
  cases hs : List.insertionSort sdkGE l with
  | nil =>
    rw [hs] at hperm
    exact absurd hperm.symm.eq_nil hne
  | cons b t =>
    refine ⟨b, t, rfl, ?_, ?_⟩
    · exact hperm.mem_iff.mp (by rw [hs]; exact List.mem_cons_self b t)
    · intro q hq
      have hq' : q ∈ b :: t := by rw [← hs]; exact hperm.mem_iff.mpr hq
      rcases List.mem_cons.mp hq' with h | h
      · subst h; exact verLt_irrefl _
      · rw [hs] at hsorted
        exact List.rel_of_sorted_cons hsorted q h

/-- C1 (amended): package resolution considers exactly the packages whose id
starts with `'Win10SDK_'` and whose id-embedded suffix after the separator
begins with a digit, sorts them by parsed dot-separated integer version
descending with a stable sort and returns the first element; whenever the
matching packages carry pairwise-distinct parsed versions, the selected
package is the maximal one and is independent of the input order of the
package list. -/
theorem select_sdk_package_max_of_distinct (m1 m2 : Manifest)
    (hperm : m1.packages.Perm m2.packages)
    (hne : m1.packages.filter (fun p => is_sdk_package p) ≠ [])
    (hdist : (m1.packages.filter fun p => is_sdk_package p).Pairwise
      (fun a b => parse_version a.version ≠ parse_version b.version)) :
    (∀ p, p ∈ m1.packages.filter (fun p => is_sdk_package p) ↔
        p ∈ m1.packages ∧ is_sdk_package p = true)
    ∧ ∃ best,
        select_sdk_package m1 = .ok best
        ∧ best ∈ m1.packages.filter (fun p => is_sdk_package p)
        ∧ (∀ q ∈ m1.packages.filter (fun p => is_sdk_package p),
            verLt (parse_version best.version) (parse_version q.version) = false)
        ∧ select_sdk_package m2 = .ok best := by
  constructor
  · intro p; exact List.mem_filter
  · have hfperm : (m1.packages.filter fun p => is_sdk_package p).Perm
        (m2.packages.filter fun p => is_sdk_package p) := hperm.filter _
    have hne2 : m2.packages.filter (fun p => is_sdk_package p) ≠ [] := by
      intro h
      exact hne (List.Perm.eq_nil (h ▸ hfperm))
    obtain ⟨b1, t1, hs1, hb1mem, hb1max⟩ :=
      insertionSort_head_max (m1.packages.filter fun p => is_sdk_package p) hne
    obtain ⟨b2, t2, hs2, hb2mem, hb2max⟩ :=
      insertionSort_head_max (m2.packages.filter fun p => is_sdk_package p) hne2
    have hb2mem1 : b2 ∈ m1.packages.filter fun p => is_sdk_package p :=
      hfperm.mem_iff.mpr hb2mem
    have h12 : sdkGE b1 b2 := hb1max b2 hb2mem1
    have h21 : sdkGE b2 b1 := hb2max b1 (hfperm.mem_iff.mp hb1mem)
    have hkeys : parse_version b1.version = parse_version b2.version :=
      verLt_connex _ _ h12 h21
    have hbeq : b1 = b2 := by
      by_contra hne12
      exact (hdist.forall (fun a b h => Ne.symm h) hb1mem hb2mem1 hne12) hkeys
    refine ⟨b1, ?_, hb1mem, ?_, ?_⟩
    · simp [select_sdk_package, hs1]
    · intro q hq; exact hb1max q hq
    · rw [hbeq]; simp [select_sdk_package, hs2]

def pkgA : Package := ⟨"Win10SDK_1", "1", "msi", []⟩
def pkgB : Package := ⟨"Win10SDK_2", "1", "msi", []⟩
def pkgOther : Package := ⟨"Win10SDK_IpOverUsb", "1.0", "msi", []⟩
def pkgC : Package := ⟨"Win10SDK_10.0.1", "10.0.1", "msi", []⟩
def pkgExtra : Package := ⟨"Win10SDK_Extra", "1.0", "msi", []⟩

/-- C1 (counterexample): two matching packages with equal parsed versions:
permuting the package list changes the selected package, so the selection is
not independent of the input order. -/
theorem select_sdk_package_tie_order_dependent :
    (Manifest.mk [pkgA, pkgB]).packages.Perm (Manifest.mk [pkgB, pkgA]).packages
    ∧ select_sdk_package ⟨[pkgA, pkgB]⟩ = .ok pkgA
    ∧ select_sdk_package ⟨[pkgB, pkgA]⟩ = .ok pkgB
    ∧ pkgA ≠ pkgB :=
  ⟨List.Perm.swap pkgB pkgA [], rfl, rfl, by decide⟩

/-- C1 (witness): the spec scenario — a digit-led suffix package is selected
and a non-digit sibling rejected, in either input order. -/
theorem select_sdk_package_max_witness :
    (pkgC ∈ (Manifest.mk [pkgExtra, pkgC]).packages.filter (fun p => is_sdk_package p)
      ↔ pkgC ∈ (Manifest.mk [pkgExtra, pkgC]).packages ∧ is_sdk_package pkgC = true)
    ∧ ∃ best,
        select_sdk_package ⟨[pkgExtra, pkgC]⟩ = .ok best
        ∧ best ∈ (Manifest.mk [pkgExtra, pkgC]).packages.filter (fun p => is_sdk_package p)
        ∧ (∀ q ∈ (Manifest.mk [pkgExtra, pkgC]).packages.filter (fun p => is_sdk_package p),
            verLt (parse_version best.version) (parse_version q.version) = false)
        ∧ select_sdk_package ⟨[pkgC, pkgExtra]⟩ = .ok best := by
  have h := select_sdk_package_max_of_distinct ⟨[pkgExtra, pkgC]⟩ ⟨[pkgC, pkgExtra]⟩
    (by decide) (by decide) (by decide)
  exact ⟨h.1 pkgC, h.2⟩

/-- C2 (amended): on a manifest where no package passes the
prefix-and-digit-suffix filter, `select_sdk_package` fails with Python's
`IndexError` (there is no dedicated resolution error in the code), and it
returns normally otherwise. -/
theorem select_sdk_package_empty_is_indexError (m : Manifest) :
    (m.packages.filter (fun p => is_sdk_package p) = [] →
      select_sdk_package m = .error .indexError)
    ∧ (m.packages.filter (fun p => is_sdk_package p) ≠ [] →
      ∃ p, select_sdk_package m = .ok p) := by
  constructor
  · intro h
    simp [select_sdk_package, h]
  · intro h
    obtain ⟨b, t, hs, _, _⟩ := insertionSort_head_max _ h
    exact ⟨b, by simp [select_sdk_package, hs]⟩

/-- C2 (counterexample): on a manifest whose only package is the non-versioned
sibling `Win10SDK_IpOverUsb`, resolution fails with `IndexError`, not with
`ResolutionError("no matching package")`. -/
theorem select_sdk_package_no_resolutionError :
    select_sdk_package ⟨[pkgOther]⟩ = .error .indexError
    ∧ select_sdk_package ⟨[pkgOther]⟩ ≠ .error (.resolutionError "no matching package") :=
  ⟨rfl, fun h => by
    have h' : (Except.error PyError.indexError : Except PyError Package)
        = .error (.resolutionError "no matching package") := h
    simp at h'⟩

/-- C2 (witness): the empty-filter case raises `IndexError` and a matching
package is returned normally. -/
theorem select_sdk_package_empty_is_indexError_witness :
    select_sdk_package ⟨[]⟩ = .error .indexError
    ∧ ∃ p, select_sdk_package ⟨[pkgA]⟩ = .ok p :=
  ⟨(select_sdk_package_empty_is_indexError ⟨[]⟩).1 rfl,
   (select_sdk_package_empty_is_indexError ⟨[pkgA]⟩).2 (by decide)⟩

/-! ### The filesystem and network state threaded through `download_binary` -/

/-- The filesystem: file contents (as byte strings) by path. -/
def FS : Type := String → Option String

/-- The empty filesystem. -/
def fsEmpty : FS := fun _ => none

/-- Write (or delete, with `none`) one path. -/
def FS.set (fs : FS) (p : String) (v : Option String) : FS :=
  fun q => if q = p then v else fs q

/-- One response of the HTTP session to a streaming GET of the payload url:
a connection-level failure before anything is written, a connection-level
failure after part of the body was streamed to disk, an HTTP error status
(`raise_for_status`), or a complete body. -/
inductive NetResponse where
  | connError
  | connErrorMid (data : String)
  | httpError
  | ok (body : String)

/-- `local_path = download_dir / payload['fileName'].replace('\\', '/')`. -/
def localPathOf (downloadDir : String) (p : Payload) : String :=
  downloadDir ++ "/" ++ replaceChar '\x5c' '/' p.fileName

/-- The streamed-digest comparison
`h.hexdigest().lower() == payload['sha256'].lower()`, with the SHA-256
hex digest function passed in as the external `hashlib` collaborator. -/
def hashMatches (hash : String → String) (p : Payload) (c : String) : Bool :=
  strLower (hash c) == strLower p.sha256

/-- The cached-copy check at the top of `download_binary`: the local file
exists and its streamed digest matches. -/
def cacheHit (hash : String → String) (p : Payload) (fs : FS) (lp : String) : Bool :=
  match fs lp with
  | some c => hashMatches hash p c
  | none => false

/-- The file contents after the write phase of one transfer attempt
(`with local_path.open('wb') as f: ...`): connection errors at the request
leave the filesystem alone, a mid-transfer failure leaves the partial data,
a completed transfer leaves the full body. -/
def attemptWrittenFs (fs : FS) (lp : String) : NetResponse → FS
  | .connError => fs
  | .httpError => fs
  | .connErrorMid d => FS.set fs lp (some d)
  | .ok b => FS.set fs lp (some b)

/-- The `except` block of a failed attempt:
`if local_path.exists(): local_path.rename(local_path.with_name(local_path.name + '.failed'))`.
The rename replaces any file already at the `.failed` name. -/
def failAttemptFs (fs : FS) (lp : String) : FS :=
  match fs lp with
  | none => fs
  | some c => FS.set (FS.set fs (lp ++ ".failed") (some c)) lp none

/-- Whether one attempt with this response ends in the `except
(requests.exceptions.ConnectionError, DownloadError)` handler. -/
def attemptFails (hash : String → String) (p : Payload) : NetResponse → Bool
  | .connError => true
  | .connErrorMid _ => true
  | .httpError => false
  | .ok b => !hashMatches hash p b

/-- Whether the attempt's write phase touched the local file. -/
def writesFile : NetResponse → Bool
  | .connError => false
  | .httpError => false
  | .connErrorMid _ => true
  | .ok _ => true

/-- Result of one transfer attempt of the retry loop. -/
inductive AttemptRes where
  | success (fs : FS)
  | failed (fs : FS)
  | fatalHttp (fs : FS)

/-- One iteration of `for try_number in range(3)`: request, stream to disk,
digest check; connection errors and digest mismatches are caught and
quarantine the local file, an HTTP error status propagates uncaught. -/
def oneAttempt (hash : String → String) (p : Payload) (lp : String) (fs : FS) :
    NetResponse → AttemptRes
  | .httpError => .fatalHttp fs
  | .connError => .failed (failAttemptFs (attemptWrittenFs fs lp .connError) lp)
  | .connErrorMid d =>
      .failed (failAttemptFs (attemptWrittenFs fs lp (.connErrorMid d)) lp)
  | .ok b =>
      if hashMatches hash p b then .success (attemptWrittenFs fs lp (.ok b))
      else .failed (failAttemptFs (attemptWrittenFs fs lp (.ok b)) lp)

/-- The value returned by `download_binary`, or the exception escaping it:
`SystemExit(1)` after exhausted retries, or the uncaught `HTTPError`. -/
inductive DLResult where
  | ok (path : String)
  | systemExit (code : Nat)
  | httpFatal
  deriving DecidableEq

/-- Outcome of `download_binary`: the returned value or the raised exception,
the final filesystem, and the number of network requests performed. -/
structure DLOutcome where
  result : DLResult
  fs : FS
  netCalls : Nat

/-- The retry loop of `download_binary`. `net i` is the session's response to
the `i`-th request of this call; `calls` counts requests already made. The
`else` clause of the `for` raises `SystemExit(1)`. -/
def downloadLoop (hash : String → String) (p : Payload) (lp : String)
    (net : Nat → NetResponse) : Nat → FS → Nat → DLOutcome
  | 0, fs, calls => ⟨.systemExit 1, fs, calls⟩
  | n + 1, fs, calls =>
    match oneAttempt hash p lp fs (net calls) with
    | .success fs' => ⟨.ok lp, fs', calls + 1⟩
    | .fatalHttp fs' => ⟨.httpFatal, fs', calls + 1⟩
    | .failed fs' => downloadLoop hash p lp net n fs' (calls + 1)

/-- `Downloader.download_binary(payload)`: return the cached copy when its
digest matches, otherwise run up to 3 transfer attempts. -/
def download_binary (hash : String → String) (dir : String) (p : Payload)
    (fs : FS) (net : Nat → NetResponse) : DLOutcome :=
  let lp := localPathOf dir p
  if cacheHit hash p fs lp then ⟨.ok lp, fs, 0⟩
  else downloadLoop hash p lp net 3 fs 0

/-! ### Basic facts about the filesystem operations of `download_binary` -/

theorem append_failed_ne (s : String) : s ++ ".failed" ≠ s := by
  intro h
  have hl := congrArg String.length h
  rw [String.length_append] at hl
  have h7 : (".failed" : String).length = 7 := rfl
  rw [h7] at hl
  omega

theorem FS.set_self (fs : FS) (p : String) (v : Option String) :
    FS.set fs p v p = v := by
  simp [FS.set]

theorem FS.set_other (fs : FS) (p q : String) (v : Option String) (h : q ≠ p) :
    FS.set fs p v q = fs q := by
  simp [FS.set, h]

theorem failAttemptFs_canonical (fs : FS) (lp : String) :
    failAttemptFs fs lp lp = none := by
  cases h : fs lp with
  | none => simp [failAttemptFs, h]
  | some c => simp [failAttemptFs, h, FS.set]

theorem failAttemptFs_quarantine (fs : FS) (lp : String) (c : String) (h : fs lp = some c) :
    failAttemptFs fs lp (lp ++ ".failed") = some c := by
  simp [failAttemptFs, h, FS.set, append_failed_ne lp]

theorem failAttemptFs_frame (fs : FS) (lp q : String) (h1 : q ≠ lp)
    (h2 : q ≠ lp ++ ".failed") : failAttemptFs fs lp q = fs q := by
  cases h : fs lp with
  | none => simp [failAttemptFs, h]
  | some c => simp [failAttemptFs, h, FS.set, h1, h2]

theorem failAttemptFs_failed_pres (fs : FS) (lp : String) (c : String)
    (h : fs (lp ++ ".failed") = some c) :
    ∃ d, failAttemptFs fs lp (lp ++ ".failed") = some d := by
  cases hc : fs lp with
  | none => exact ⟨c, by simp [failAttemptFs, hc, h]⟩
  | some d => exact ⟨d, failAttemptFs_quarantine fs lp d hc⟩

theorem attemptWrittenFs_frame (fs : FS) (lp q : String) (r : NetResponse) (h : q ≠ lp) :
    attemptWrittenFs fs lp r q = fs q := by
  cases r <;> simp [attemptWrittenFs, FS.set, h]

theorem attempt_written_creates (fs : FS) (lp : String) (r : NetResponse)
    (hw : writesFile r = true) :
    ∃ c, attemptWrittenFs fs lp r lp = some c := by
  cases r with
  | connError => simp [writesFile] at hw
  | httpError => simp [writesFile] at hw
  | connErrorMid d => exact ⟨d, by simp [attemptWrittenFs, FS.set]⟩
  | ok b => exact ⟨b, by simp [attemptWrittenFs, FS.set]⟩

theorem oneAttempt_of_fails (hash : String → String) (p : Payload) (lp : String)
    (fs : FS) (r : NetResponse) (h : attemptFails hash p r = true) :
    oneAttempt hash p lp fs r = .failed (failAttemptFs (attemptWrittenFs fs lp r) lp) := by
  cases r with
  | connError => rfl
  | connErrorMid d => rfl
  | httpError => simp [attemptFails] at h
  | ok b =>
    simp only [attemptFails, Bool.not_eq_true'] at h
    simp [oneAttempt, h]

theorem oneAttempt_success_inv (hash : String → String) (p : Payload) (lp : String)
    (fs : FS) (r : NetResponse) (fs' : FS)
    (h : oneAttempt hash p lp fs r = .success fs') :
    ∃ b, r = .ok b ∧ hashMatches hash p b = true ∧ fs' = FS.set fs lp (some b) := by
  cases r with
  | connError => simp [oneAttempt] at h
  | connErrorMid d => simp [oneAttempt] at h
  | httpError => simp [oneAttempt] at h
  | ok b =>
    by_cases hm : hashMatches hash p b = true
    · refine ⟨b, rfl, hm, ?_⟩
      simp [oneAttempt, hm, attemptWrittenFs] at h
      exact h.symm
    · have hm' : hashMatches hash p b = false := by
        revert hm; cases hashMatches hash p b <;> simp
      simp [oneAttempt, hm'] at h

/-! ### Invariants of the retry loop -/

theorem downloadLoop_ok_inv (hash : String → String) (p : Payload) (lp : String)
    (net : Nat → NetResponse) :
    ∀ (n : Nat) (fs : FS) (calls : Nat) (path : String),
      (downloadLoop hash p lp net n fs calls).result = .ok path →
      path = lp ∧ cacheHit hash p (downloadLoop hash p lp net n fs calls).fs lp = true := by
  intro n
  induction n with
  | zero =>
    intro fs calls path h
    simp [downloadLoop] at h
  | succ n ih =>
    intro fs calls path h
    cases hr : oneAttempt hash p lp fs (net calls) with
    | success f =>
      simp only [downloadLoop, hr] at h ⊢
      obtain ⟨b, _, hm, hf⟩ := oneAttempt_success_inv hash p lp fs (net calls) f hr
      constructor
      · simpa using h.symm
      · simp [cacheHit, hf, FS.set, hm]
    | fatalHttp f =>
      simp only [downloadLoop, hr] at h
      simp at h
    | failed f =>
      simp only [downloadLoop, hr] at h ⊢
      exact ih f (calls + 1) path h

theorem download_binary_ok_inv (hash : String → String) (dir : String) (p : Payload)
    (fs : FS) (net : Nat → NetResponse) (path : String)
    (h : (download_binary hash dir p fs net).result = .ok path) :
    path = localPathOf dir p
    ∧ cacheHit hash p (download_binary hash dir p fs net).fs (localPathOf dir p) = true := by
  by_cases hc : cacheHit hash p fs (localPathOf dir p) = true
  · simp only [download_binary, hc, if_true] at h ⊢
    exact ⟨by simpa using h.symm, trivial⟩
  · have hc' : cacheHit hash p fs (localPathOf dir p) = false := by
      revert hc; cases cacheHit hash p fs (localPathOf dir p) <;> simp
    simp only [download_binary, hc', Bool.false_eq_true, if_false] at h ⊢
    exact downloadLoop_ok_inv hash p (localPathOf dir p) net 3 fs 0 path h

/-- C3 (amended): a payload whose local file exists with a case-insensitively
matching streamed digest is returned immediately with zero network requests
and an unchanged filesystem; consequently, when a fetch returns successfully,
a second fetch on the resulting state performs zero network requests (while a
first fetch that retries may itself perform up to 3 requests). -/
theorem download_binary_cache_hit_no_network (hash : String → String) (dir : String)
    (p : Payload) (fs : FS) (net net' : Nat → NetResponse) :
    (∀ c, fs (localPathOf dir p) = some c → hashMatches hash p c = true →
      download_binary hash dir p fs net = ⟨.ok (localPathOf dir p), fs, 0⟩)
    ∧ (∀ path, (download_binary hash dir p fs net).result = .ok path →
      download_binary hash dir p (download_binary hash dir p fs net).fs net'
        = ⟨.ok path, (download_binary hash dir p fs net).fs, 0⟩) := by
  constructor
  · intro c hc hm
    have hch : cacheHit hash p fs (localPathOf dir p) = true := by
      simp [cacheHit, hc, hm]
    simp [download_binary, hch]
  · intro path h
    obtain ⟨hpath, hcache⟩ := download_binary_ok_inv hash dir p fs net path h
    subst hpath
    set o := download_binary hash dir p fs net with ho
    simp only [download_binary, hcache, if_true]

def wHash : String → String := fun s => s
def wPayload : Payload := ⟨"a.bin", "http://u", "abc"⟩
def wFs : FS := FS.set fsEmpty "d/a.bin" (some "abc")
def wNetConn : Nat → NetResponse := fun _ => .connError
def wNetRetry : Nat → NetResponse := fun n => if n = 0 then .connError else .ok "abc"
def wNetBad : Nat → NetResponse := fun _ => .ok "zzz"

/-- C3 (witness): a cached matching file is returned with zero network
requests, and a second fetch after a successful first one is a cache hit. -/
theorem download_binary_cache_hit_witness :
    download_binary wHash "d" wPayload wFs wNetConn
      = ⟨.ok (localPathOf "d" wPayload), wFs, 0⟩
    ∧ download_binary wHash "d" wPayload
        (download_binary wHash "d" wPayload wFs wNetConn).fs wNetConn
      = ⟨.ok "d/a.bin", (download_binary wHash "d" wPayload wFs wNetConn).fs, 0⟩ := by
  have h := download_binary_cache_hit_no_network wHash "d" wPayload wFs wNetConn wNetConn
  exact ⟨h.1 "abc" (by decide) (by decide), h.2 "d/a.bin" (by decide)⟩

/-- C3 (counterexample): a payload whose first transfer attempt hits a
connection error and whose second succeeds: the two successive fetch calls
together perform 2 network requests, not at most one. -/
theorem download_binary_two_calls_two_requests :
    (download_binary wHash "d" wPayload fsEmpty wNetRetry).netCalls
      + (download_binary wHash "d" wPayload
          (download_binary wHash "d" wPayload fsEmpty wNetRetry).fs wNetRetry).netCalls = 2
    ∧ ¬ ((download_binary wHash "d" wPayload fsEmpty wNetRetry).netCalls
      + (download_binary wHash "d" wPayload
          (download_binary wHash "d" wPayload fsEmpty wNetRetry).fs wNetRetry).netCalls ≤ 1) := by
  decide

theorem downloadLoop_all_fail (hash : String → String) (p : Payload) (lp : String)
    (net : Nat → NetResponse) :
    ∀ (n : Nat) (fs : FS) (calls : Nat),
      (∀ i, i < n → attemptFails hash p (net (calls + i)) = true) →
      (downloadLoop hash p lp net n fs calls).result = .systemExit 1
      ∧ (downloadLoop hash p lp net n fs calls).netCalls = calls + n
      ∧ ((∃ c, fs (lp ++ ".failed") = some c) →
          ∃ c, (downloadLoop hash p lp net n fs calls).fs (lp ++ ".failed") = some c)
      ∧ ((∃ i, i < n ∧ writesFile (net (calls + i)) = true) →
          ∃ c, (downloadLoop hash p lp net n fs calls).fs (lp ++ ".failed") = some c) := by
  intro n
  induction n with
  | zero =>
    intro fs calls _
    refine ⟨rfl, rfl, fun hc => hc, ?_⟩
    rintro ⟨i, hi, _⟩
    exact absurd hi (Nat.not_lt_zero i)
  | succ n ih =>
    intro fs calls h
    have h0 : attemptFails hash p (net calls) = true := by
      have := h 0 (Nat.succ_pos n)
      rwa [Nat.add_zero] at this
    have s0 := oneAttempt_of_fails hash p lp fs (net calls) h0
    have estep : downloadLoop hash p lp net (n + 1) fs calls
        = downloadLoop hash p lp net n
            (failAttemptFs (attemptWrittenFs fs lp (net calls)) lp) (calls + 1) := by
      simp only [downloadLoop, s0]
    obtain ⟨ra, rb, rc, rd⟩ :=
      ih (failAttemptFs (attemptWrittenFs fs lp (net calls)) lp) (calls + 1)
        (fun i hi => by
          have := h (i + 1) (Nat.succ_lt_succ hi)
          rwa [show calls + (i + 1) = calls + 1 + i by omega] at this)
    rw [estep]
    refine ⟨ra, by rw [rb]; omega, ?_, ?_⟩
    · rintro ⟨c, hcc⟩
      apply rc
      have hne : lp ++ ".failed" ≠ lp := append_failed_ne lp
      have hw : attemptWrittenFs fs lp (net calls) (lp ++ ".failed") = some c := by
        rw [attemptWrittenFs_frame fs lp _ _ hne]; exact hcc
      exact failAttemptFs_failed_pres _ lp c hw
    · rintro ⟨i, hi, hwf⟩
      cases i with
      | zero =>
        apply rc
        rw [Nat.add_zero] at hwf
        obtain ⟨c, hc⟩ := attempt_written_creates fs lp (net calls) hwf
        exact ⟨c, failAttemptFs_quarantine _ lp c hc⟩
      | succ j =>
        apply rd
        refine ⟨j, Nat.lt_of_succ_lt_succ hi, ?_⟩
        rwa [show calls + 1 + j = calls + (j + 1) by omega]

/-- C4 (amended): when all 3 transfer attempts fail (connection failure or
digest mismatch), `download_binary` raises `SystemExit(1)` after exactly 3
requests and no further attempt; a `.failed` artifact remains whenever at
least one of the failing attempts wrote the local file (any digest mismatch
after a completed or partial transfer does), while 3 pure connection
failures with no pre-existing file leave no artifact. -/
theorem download_binary_three_failures_fatal (hash : String → String) (dir : String)
    (p : Payload) (fs : FS) (net : Nat → NetResponse)
    (hch : cacheHit hash p fs (localPathOf dir p) = false)
    (h0 : attemptFails hash p (net 0) = true)
    (h1 : attemptFails hash p (net 1) = true)
    (h2 : attemptFails hash p (net 2) = true) :
    (download_binary hash dir p fs net).result = .systemExit 1
    ∧ (download_binary hash dir p fs net).netCalls = 3
    ∧ ((writesFile (net 0) = true ∨ writesFile (net 1) = true ∨ writesFile (net 2) = true) →
        ∃ c, (download_binary hash dir p fs net).fs
          (localPathOf dir p ++ ".failed") = some c) := by
  have hall : ∀ i, i < 3 → attemptFails hash p (net (0 + i)) = true := by
    intro i hi
    rw [Nat.zero_add]
    match i, hi with
    | 0, _ => exact h0
    | 1, _ => exact h1
    | 2, _ => exact h2
  obtain ⟨ra, rb, _, rd⟩ :=
    downloadLoop_all_fail hash p (localPathOf dir p) net 3 fs 0 hall
  have hun : download_binary hash dir p fs net
      = downloadLoop hash p (localPathOf dir p) net 3 fs 0 := by
    simp [download_binary, hch]
  rw [hun]
  refine ⟨ra, by rw [rb], ?_⟩
  intro hw
  apply rd
  rcases hw with hw | hw | hw
  · exact ⟨0, by omega, by rwa [Nat.zero_add]⟩
  · exact ⟨1, by omega, by rwa [Nat.zero_add]⟩
  · exact ⟨2, by omega, by rwa [Nat.zero_add]⟩

/-- C4 (witness): three digest-mismatch transfers: `SystemExit(1)`, exactly
3 requests, and a `.failed` artifact remains. -/
theorem download_binary_three_failures_witness :
    (download_binary wHash "d" wPayload fsEmpty wNetBad).result = .systemExit 1
    ∧ (download_binary wHash "d" wPayload fsEmpty wNetBad).netCalls = 3
    ∧ ∃ c, (download_binary wHash "d" wPayload fsEmpty wNetBad).fs
        (localPathOf "d" wPayload ++ ".failed") = some c := by
  have h := download_binary_three_failures_fatal wHash "d" wPayload fsEmpty wNetBad
    (by decide) (by decide) (by decide) (by decide)
  exact ⟨h.1, h.2.1, h.2.2 (Or.inl (by decide))⟩

/-- C4 (counterexample): a payload failing with 3 connection-level failures
and no pre-existing local file: the pipeline terminates with `SystemExit(1)`
but the filesystem is left completely empty — no artifact with the `.failed`
suffix exists. -/
theorem download_binary_conn_failures_no_artifact :
    (download_binary wHash "d" wPayload fsEmpty wNetConn).result = .systemExit 1
    ∧ (download_binary wHash "d" wPayload fsEmpty wNetConn).fs = fsEmpty := by
  exact ⟨rfl, rfl⟩

/-- C5: every failed transfer attempt (connection-level failure or digest
mismatch) runs the quarantine step: if a file is present at the canonical
local path after the attempt's write phase, it ends up at the `.failed`
sibling — a name distinct from the canonical path — and the canonical path
is left empty before the next attempt. -/
theorem failed_attempt_quarantines (hash : String → String) (p : Payload) (lp : String)
    (fs : FS) (r : NetResponse) (h : attemptFails hash p r = true) :
    oneAttempt hash p lp fs r = .failed (failAttemptFs (attemptWrittenFs fs lp r) lp)
    ∧ failAttemptFs (attemptWrittenFs fs lp r) lp lp = none
    ∧ lp ++ ".failed" ≠ lp
    ∧ ∀ c, attemptWrittenFs fs lp r lp = some c →
        failAttemptFs (attemptWrittenFs fs lp r) lp (lp ++ ".failed") = some c :=
  ⟨oneAttempt_of_fails hash p lp fs r h,
   failAttemptFs_canonical _ lp,
   append_failed_ne lp,
   fun c hc => failAttemptFs_quarantine _ lp c hc⟩

/-- C5 (witness): a mid-transfer connection failure quarantines the partial
file under the `.failed` name and empties the canonical path. -/
theorem failed_attempt_quarantines_witness :
    oneAttempt wHash wPayload "L" fsEmpty (.connErrorMid "xx")
      = .failed (failAttemptFs (attemptWrittenFs fsEmpty "L" (.connErrorMid "xx")) "L")
    ∧ failAttemptFs (attemptWrittenFs fsEmpty "L" (.connErrorMid "xx")) "L" "L" = none
    ∧ "L" ++ ".failed" ≠ "L"
    ∧ failAttemptFs (attemptWrittenFs fsEmpty "L" (.connErrorMid "xx")) "L"
        ("L" ++ ".failed") = some "xx" := by
  have h := failed_attempt_quarantines wHash wPayload "L" fsEmpty (.connErrorMid "xx") rfl
  exact ⟨h.1, h.2.1, h.2.2.1, h.2.2.2 "xx" (by decide)⟩

/-! ### Frame property of `download_binary` (single quarantine name) -/

/-- The filesystem carried by an attempt result. -/
def AttemptRes.fsOf : AttemptRes → FS
  | .success f => f
  | .failed f => f
  | .fatalHttp f => f

theorem oneAttempt_frame (hash : String → String) (p : Payload) (lp : String) (fs : FS)
    (r : NetResponse) (q : String) (h1 : q ≠ lp) (h2 : q ≠ lp ++ ".failed") :
    (oneAttempt hash p lp fs r).fsOf q = fs q := by
  cases r with
  | httpError => rfl
  | connError =>
    show failAttemptFs (attemptWrittenFs fs lp .connError) lp q = fs q
    rw [failAttemptFs_frame _ _ _ h1 h2, attemptWrittenFs_frame _ _ _ _ h1]
  | connErrorMid d =>
    show failAttemptFs (attemptWrittenFs fs lp (.connErrorMid d)) lp q = fs q
    rw [failAttemptFs_frame _ _ _ h1 h2, attemptWrittenFs_frame _ _ _ _ h1]
  | ok b =>
    by_cases hm : hashMatches hash p b = true
    · simp only [oneAttempt, hm, if_true]
      show attemptWrittenFs fs lp (.ok b) q = fs q
      rw [attemptWrittenFs_frame _ _ _ _ h1]
    · have hm' : hashMatches hash p b = false := by
        revert hm; cases hashMatches hash p b <;> simp
      simp only [oneAttempt, hm', Bool.false_eq_true, if_false]
      show failAttemptFs (attemptWrittenFs fs lp (.ok b)) lp q = fs q
      rw [failAttemptFs_frame _ _ _ h1 h2, attemptWrittenFs_frame _ _ _ _ h1]

theorem downloadLoop_frame (hash : String → String) (p : Payload) (lp : String)
    (net : Nat → NetResponse) (q : String) (h1 : q ≠ lp) (h2 : q ≠ lp ++ ".failed") :
    ∀ (n : Nat) (fs : FS) (calls : Nat),
      (downloadLoop hash p lp net n fs calls).fs q = fs q := by
  intro n
  induction n with
  | zero => intro fs calls; rfl
  | succ n ih =>
    intro fs calls
    have hof := oneAttempt_frame hash p lp fs (net calls) q h1 h2
    cases hr : oneAttempt hash p lp fs (net calls) with
    | success f =>
      rw [hr] at hof
      simp only [downloadLoop, hr]
      exact hof
    | fatalHttp f =>
      rw [hr] at hof
      simp only [downloadLoop, hr]
      exact hof
    | failed f =>
      rw [hr] at hof
      simp only [downloadLoop, hr]
      rw [ih f (calls + 1)]
      exact hof

/-- C10: a `download_binary` call only ever touches the canonical local path
and the single fixed sibling obtained by appending `.failed` to it — every
other path is untouched — and each failing attempt's rename writes the
current canonical file contents over that single `.failed` name, replacing
whatever was there. -/
theorem download_binary_single_quarantine_name (hash : String → String) (dir : String)
    (p : Payload) (fs : FS) (net : Nat → NetResponse) :
    (∀ q, q ≠ localPathOf dir p → q ≠ localPathOf dir p ++ ".failed" →
      (download_binary hash dir p fs net).fs q = fs q)
    ∧ (∀ (g : FS) (c : String), g (localPathOf dir p) = some c →
      failAttemptFs g (localPathOf dir p) (localPathOf dir p ++ ".failed") = some c) := by
  constructor
  · intro q h1 h2
    by_cases hc : cacheHit hash p fs (localPathOf dir p) = true
    · simp [download_binary, hc]
    · have hc' : cacheHit hash p fs (localPathOf dir p) = false := by
        revert hc; cases cacheHit hash p fs (localPathOf dir p) <;> simp
      simp only [download_binary, hc', Bool.false_eq_true, if_false]
      exact downloadLoop_frame hash p (localPathOf dir p) net q h1 h2 3 fs 0
  · intro g c hg
    exact failAttemptFs_quarantine g (localPathOf dir p) c hg

/-- C10 (witness): an unrelated path is untouched by a failing download, and
the quarantine rename replaces the `.failed` entry with the current
contents. -/
theorem download_binary_single_quarantine_name_witness :
    (download_binary wHash "d" wPayload fsEmpty wNetBad).fs "other.txt"
      = fsEmpty "other.txt"
    ∧ failAttemptFs (FS.set fsEmpty (localPathOf "d" wPayload) (some "zzz"))
        (localPathOf "d" wPayload) (localPathOf "d" wPayload ++ ".failed")
      = some "zzz" := by
  have h := download_binary_single_quarantine_name wHash "d" wPayload fsEmpty wNetBad
  exact ⟨h.1 "other.txt" (by decide) (by decide),
    h.2 (FS.set fsEmpty (localPathOf "d" wPayload) (some "zzz")) "zzz" (by decide)⟩

/-! ### Cabinet payload selection (`filter_sdk_cabs`) -/

/-- `filter_sdk_cabs(sdk, cabs)`: yield each payload whose final
backslash-separated path component is in the cabinet name set (the source
builds `set(cabs)` only for the membership test). -/
def filter_sdk_cabs (sdk : Package) (cabs : List String) : List Payload :=
  sdk.payloads.filter fun p => decide (finalComponent p.fileName ∈ cabs)

/-- C6 (amended): the suffix-set selection returns, in payload-list order,
one output entry per matching payload entry — so duplicate payload entries
produce duplicate outputs — and the result depends only on the membership of
the cabinet name collection, not on its order or multiplicity. -/
theorem filter_sdk_cabs_exact (sdk : Package) (cabs cabs' : List String)
    (hmem : ∀ s, s ∈ cabs ↔ s ∈ cabs') :
    filter_sdk_cabs sdk cabs = filter_sdk_cabs sdk cabs'
    ∧ (∀ p, p ∈ filter_sdk_cabs sdk cabs ↔
        p ∈ sdk.payloads ∧ finalComponent p.fileName ∈ cabs)
    ∧ ∀ p, (filter_sdk_cabs sdk cabs).count p
        = if finalComponent p.fileName ∈ cabs then sdk.payloads.count p else 0 := by
  refine ⟨?_, ?_, ?_⟩
  · exact List.filter_congr fun x _ => decide_eq_decide.mpr (hmem _)
  · intro p
    simp [filter_sdk_cabs, List.mem_filter]
  · intro p
    by_cases hp : finalComponent p.fileName ∈ cabs
    · rw [if_pos hp]
      exact List.count_filter (by simpa using hp)
    · rw [if_neg hp]
      refine List.count_eq_zero.mpr ?_
      intro hmem2
      have := (List.mem_filter.mp hmem2).2
      simp at this
      exact hp this

def cabPayload : Payload := ⟨"a\x5cb.cab", "http://c", "h"⟩
def sdkDup : Package := ⟨"Win10SDK_10", "10.0", "msi", [cabPayload, cabPayload]⟩

/-- C6 (counterexample): the same final component appearing in two payload
entries yields two output entries — the result is not duplicate-free. -/
theorem filter_sdk_cabs_duplicates :
    filter_sdk_cabs sdkDup ["b.cab"] = [cabPayload, cabPayload]
    ∧ ¬ (filter_sdk_cabs sdkDup ["b.cab"]).Nodup := by
  decide

/-- C6 (witness): a duplicated cabinet name in the collection changes
nothing, the matching payload is characterised by its final component, and
the output multiplicity equals the payload-list multiplicity. -/
theorem filter_sdk_cabs_exact_witness :
    filter_sdk_cabs sdkDup ["b.cab", "b.cab"] = filter_sdk_cabs sdkDup ["b.cab"]
    ∧ (cabPayload ∈ filter_sdk_cabs sdkDup ["b.cab", "b.cab"] ↔
        cabPayload ∈ sdkDup.payloads ∧ finalComponent cabPayload.fileName ∈ ["b.cab", "b.cab"])
    ∧ (filter_sdk_cabs sdkDup ["b.cab", "b.cab"]).count cabPayload
        = if finalComponent cabPayload.fileName ∈ ["b.cab", "b.cab"]
          then sdkDup.payloads.count cabPayload else 0 := by
  have h := filter_sdk_cabs_exact sdkDup ["b.cab", "b.cab"] ["b.cab"]
    (fun s => by simp)
  exact ⟨h.1, h.2.1 cabPayload, h.2.2 cabPayload⟩

/-! ### Extraction (`extract_msi`, `extract_vsix`, `Downloader.extract_all`) -/

/-- One run of the `msiextract` collaborator on an archive: exit status,
what it wrote to its error channel, and the files it extracted into the
destination. -/
structure MsiRun where
  exitCode : Nat
  stderr : String
  writes : List (String × String)

/-- One run of the zip extractor on an archive: the extracted files, or a
raised `zipfile` error. -/
inductive ZipRun where
  | ok (writes : List (String × String))
  | err

def ZipRun.isOk : ZipRun → Bool
  | .ok _ => true
  | .err => false

/-- An extraction performed by `extract_all`, in order. -/
inductive ExtEvent where
  | msi (path : String)
  | vsix (path : String)
  deriving DecidableEq

/-- The observable state of one `extract_all` run: the extracted directory
contents, the completed extractions in order, and the archives for which the
`Failed! msiextract stderr` report was printed. -/
structure ExtractState where
  fs : FS
  trace : List ExtEvent
  failedLogs : List String

/-- Apply a collaborator's writes to the destination directory. -/
def applyWrites (fs : FS) (ws : List (String × String)) : FS :=
  ws.foldl (fun f kv => FS.set f kv.1 (some kv.2)) fs

/-- `extract_msi(msi, path)`: `subprocess.run(..., check=True)` raises
`CalledProcessError` on a nonzero exit status; stderr output from a
zero-status run is only printed (recorded in `failedLogs` here) and the
run continues. -/
def extract_msi (collab : String → MsiRun) (st : ExtractState) (m : String) :
    Except PyError ExtractState :=
  let r := collab m
  if r.exitCode ≠ 0 then .error (.calledProcessError m)
  else .ok
    { fs := applyWrites st.fs r.writes
    , trace := st.trace ++ [.msi m]
    , failedLogs := if r.stderr ≠ "" then st.failedLogs ++ [m] else st.failedLogs }

/-- `extract_vsix(vsix, path)`: `zipfile.ZipFile(...).extractall(path)`,
with any zip error propagating uncaught. -/
def extract_vsix (zipc : String → ZipRun) (st : ExtractState) (v : String) :
    Except PyError ExtractState :=
  match zipc v with
  | .err => .error (.zipError v)
  | .ok ws => .ok
    { fs := applyWrites st.fs ws
    , trace := st.trace ++ [.vsix v]
    , failedLogs := st.failedLogs }

/-- Outcome of `extract_all`: the exception that aborted it (if any) and the
state reached. -/
structure ExtractAllOut where
  err : Option PyError
  st : ExtractState

/-- `for m in msis: extract_msi(m, self.extracted_dir)`. -/
def runMsis (collab : String → MsiRun) : List String → ExtractState → ExtractAllOut
  | [], st => ⟨none, st⟩
  | m :: ms, st =>
    match extract_msi collab st m with
    | .error e => ⟨some e, st⟩
    | .ok st' => runMsis collab ms st'

/-- `for v in vsixes: extract_vsix(v, self.extracted_dir)`. -/
def runVsixes (zipc : String → ZipRun) : List String → ExtractState → ExtractAllOut
  | [], st => ⟨none, st⟩
  | v :: vs, st =>
    match extract_vsix zipc st v with
    | .error e => ⟨some e, st⟩
    | .ok st' => runVsixes zipc vs st'

/-- `shutil.rmtree(self.extracted_dir)` with `FileNotFoundError` caught
(missing directory is not an error) followed by `mkdir`: whatever the
previous extracted directory was — present or missing — it becomes empty. -/
def clearExtracted : Option FS → FS
  | none => fsEmpty
  | some _ => fsEmpty

/-- `Downloader.extract_all()`: clear and recreate the extracted directory,
list every `*.msi` and every `*.vsix` anywhere under the download cache
directory (`rglob`), then extract all installer archives followed by all
extension archives.  `listing` is the recursive listing of the download
directory; `prev` is the extracted directory before the call (`none` =
missing). -/
def extract_all (collab : String → MsiRun) (zipc : String → ZipRun)
    (listing : List String) (prev : Option FS) : ExtractAllOut :=
  let st0 : ExtractState := ⟨clearExtracted prev, [], []⟩
  let msis := listing.filter fun s => strEndsWith s ".msi"
  let vsixes := listing.filter fun s => strEndsWith s ".vsix"
  let r := runMsis collab msis st0
  match r.err with
  | some e => ⟨some e, r.st⟩
  | none => runVsixes zipc vsixes r.st

theorem clearExtracted_eq : ∀ o : Option FS, clearExtracted o = fsEmpty := by
  intro o; cases o <;> rfl

theorem applyWrites_some (ws : List (String × String)) :
    ∀ (fs : FS) (q c : String),
      applyWrites fs ws q = some c → (q, c) ∈ ws ∨ fs q = some c := by
  induction ws with
  | nil => intro fs q c h; exact Or.inr h
  | cons kv ws ih =>
    intro fs q c h
    have h' : applyWrites (FS.set fs kv.1 (some kv.2)) ws q = some c := by
      simpa [applyWrites] using h
    rcases ih (FS.set fs kv.1 (some kv.2)) q c h' with hw | hfs
    · exact Or.inl (List.mem_cons_of_mem kv hw)
    · by_cases hq : q = kv.1
      · rw [hq, FS.set_self] at hfs
        have hc : kv.2 = c := by injection hfs
        left
        have hkv : kv = (q, c) := by
          obtain ⟨k1, k2⟩ := kv
          simp only [Prod.mk.injEq]
          exact ⟨hq.symm, hc⟩
        rw [← hkv]
        exact List.mem_cons_self kv ws
      · rw [FS.set_other _ _ _ _ hq] at hfs
        exact Or.inr hfs

theorem runMsis_fs_inv (collab : String → MsiRun) :
    ∀ (ms : List String) (st : ExtractState) (q c : String),
      (runMsis collab ms st).st.fs q = some c →
      st.fs q = some c ∨ ∃ a ∈ ms, (q, c) ∈ (collab a).writes := by
  intro ms
  induction ms with
  | nil => intro st q c h; exact Or.inl h
  | cons m ms ih =>
    intro st q c h
    by_cases he : (collab m).exitCode = 0
    · have hstep : runMsis collab (m :: ms) st
          = runMsis collab ms
            { fs := applyWrites st.fs (collab m).writes
            , trace := st.trace ++ [.msi m]
            , failedLogs := if (collab m).stderr ≠ "" then st.failedLogs ++ [m]
                else st.failedLogs } := by
        simp [runMsis, extract_msi, he]
      rw [hstep] at h
      rcases ih _ q c h with h1 | ⟨a, ha, hw⟩
      · rcases applyWrites_some _ _ q c h1 with hw | hfs
        · exact Or.inr ⟨m, List.mem_cons_self m ms, hw⟩
        · exact Or.inl hfs
      · exact Or.inr ⟨a, List.mem_cons_of_mem m ha, hw⟩
    · have hstep : runMsis collab (m :: ms) st
          = ⟨some (.calledProcessError m), st⟩ := by
        simp [runMsis, extract_msi, he]
      rw [hstep] at h
      exact Or.inl h

theorem runVsixes_fs_inv (zipc : String → ZipRun) :
    ∀ (vs : List String) (st : ExtractState) (q c : String),
      (runVsixes zipc vs st).st.fs q = some c →
      st.fs q = some c ∨ ∃ a ∈ vs, ∃ ws, zipc a = .ok ws ∧ (q, c) ∈ ws := by
  intro vs
  induction vs with
  | nil => intro st q c h; exact Or.inl h
  | cons v vs ih =>
    intro st q c h
    cases hz : zipc v with
    | err =>
      have hstep : runVsixes zipc (v :: vs) st = ⟨some (.zipError v), st⟩ := by
        simp [runVsixes, extract_vsix, hz]
      rw [hstep] at h
      exact Or.inl h
    | ok ws =>
      have hstep : runVsixes zipc (v :: vs) st
          = runVsixes zipc vs
            { fs := applyWrites st.fs ws
            , trace := st.trace ++ [.vsix v]
            , failedLogs := st.failedLogs } := by
        simp [runVsixes, extract_vsix, hz]
      rw [hstep] at h
      rcases ih _ q c h with h1 | ⟨a, ha, ws', hz', hw⟩
      · rcases applyWrites_some _ _ q c h1 with hw | hfs
        · exact Or.inr ⟨v, List.mem_cons_self v vs, ws, hz, hw⟩
        · exact Or.inl hfs
      · exact Or.inr ⟨a, List.mem_cons_of_mem v ha, ws', hz', hw⟩

theorem runMsis_all_ok (collab : String → MsiRun) :
    ∀ (ms : List String) (st : ExtractState),
      (∀ b ∈ ms, (collab b).exitCode = 0) →
      (runMsis collab ms st).err = none
      ∧ (runMsis collab ms st).st.trace = st.trace ++ ms.map ExtEvent.msi
      ∧ (runMsis collab ms st).st.failedLogs
          = st.failedLogs ++ ms.filter (fun b => decide ((collab b).stderr ≠ ""))
      ∧ (runMsis collab ms st).st.fs
          = applyWrites st.fs (ms.flatMap fun b => (collab b).writes) := by
  intro ms
  induction ms with
  | nil =>
    intro st _
    exact ⟨rfl, by simp [runMsis], by simp [runMsis], by simp [runMsis, applyWrites]⟩
  | cons m ms ih =>
    intro st h
    have he := h m (List.mem_cons_self m ms)
    have hstep : runMsis collab (m :: ms) st
        = runMsis collab ms
          { fs := applyWrites st.fs (collab m).writes
          , trace := st.trace ++ [.msi m]
          , failedLogs := if (collab m).stderr ≠ "" then st.failedLogs ++ [m]
              else st.failedLogs } := by
      simp [runMsis, extract_msi, he]
    obtain ⟨ra, rb, rc, rd⟩ := ih
      { fs := applyWrites st.fs (collab m).writes
      , trace := st.trace ++ [.msi m]
      , failedLogs := if (collab m).stderr ≠ "" then st.failedLogs ++ [m]
          else st.failedLogs }
      (fun b hb => h b (List.mem_cons_of_mem m hb))
    rw [hstep]
    refine ⟨ra, by rw [rb]; simp, ?_, ?_⟩
    · rw [rc]
      by_cases hs : (collab m).stderr = ""
      · simp [hs]
      · simp [hs]
    · rw [rd]
      simp [applyWrites, List.flatMap_cons, List.foldl_append]

theorem runVsixes_all_ok (zipc : String → ZipRun) :
    ∀ (vs : List String) (st : ExtractState),
      (∀ v ∈ vs, (zipc v).isOk = true) →
      (runVsixes zipc vs st).err = none
      ∧ (runVsixes zipc vs st).st.trace = st.trace ++ vs.map ExtEvent.vsix
      ∧ (runVsixes zipc vs st).st.failedLogs = st.failedLogs := by
  intro vs
  induction vs with
  | nil =>
    intro st _
    exact ⟨rfl, by simp [runVsixes], rfl⟩
  | cons v vs ih =>
    intro st h
    have hv := h v (List.mem_cons_self v vs)
    cases hz : zipc v with
    | err => rw [hz] at hv; simp [ZipRun.isOk] at hv
    | ok ws =>
      have hstep : runVsixes zipc (v :: vs) st
          = runVsixes zipc vs
            { fs := applyWrites st.fs ws
            , trace := st.trace ++ [.vsix v]
            , failedLogs := st.failedLogs } := by
        simp [runVsixes, extract_vsix, hz]
      obtain ⟨ra, rb, rc⟩ := ih
        { fs := applyWrites st.fs ws
        , trace := st.trace ++ [.vsix v]
        , failedLogs := st.failedLogs }
        (fun b hb => h b (List.mem_cons_of_mem v hb))
      rw [hstep]
      exact ⟨ra, by rw [rb]; simp, rc⟩

theorem runMsis_abort (collab : String → MsiRun) :
    ∀ (pre : List String) (a : String) (post : List String) (st : ExtractState),
      (∀ b ∈ pre, (collab b).exitCode = 0) →
      (collab a).exitCode ≠ 0 →
      (runMsis collab (pre ++ a :: post) st).err = some (.calledProcessError a)
      ∧ (runMsis collab (pre ++ a :: post) st).st.trace
          = st.trace ++ pre.map ExtEvent.msi := by
  intro pre
  induction pre with
  | nil =>
    intro a post st _ hfail
    have hstep : runMsis collab ([] ++ a :: post) st
        = ⟨some (.calledProcessError a), st⟩ := by
      simp [runMsis, extract_msi, hfail]
    rw [hstep]
    exact ⟨rfl, by simp⟩
  | cons b pre ih =>
    intro a post st hpre hfail
    have hb := hpre b (List.mem_cons_self b pre)
    have hstep : runMsis collab ((b :: pre) ++ a :: post) st
        = runMsis collab (pre ++ a :: post)
          { fs := applyWrites st.fs (collab b).writes
          , trace := st.trace ++ [.msi b]
          , failedLogs := if (collab b).stderr ≠ "" then st.failedLogs ++ [b]
              else st.failedLogs } := by
      simp [runMsis, extract_msi, hb]
    obtain ⟨ra, rb⟩ := ih a post
      { fs := applyWrites st.fs (collab b).writes
      , trace := st.trace ++ [.msi b]
      , failedLogs := if (collab b).stderr ≠ "" then st.failedLogs ++ [b]
          else st.failedLogs }
      (fun x hx => hpre x (List.mem_cons_of_mem b hx)) hfail
    rw [hstep]
    exact ⟨ra, by rw [rb]; simp⟩

/-- C7: `extract_all` clears the extracted directory (a missing directory is
not an error) before any extraction: its outcome is independent of whatever
the extracted directory held before the call, and every file present in the
destination afterwards was written by one of the current call's archives. -/
theorem extract_all_rebuilds_from_scratch (collab : String → MsiRun)
    (zipc : String → ZipRun) (listing : List String) (prev prev' : Option FS) :
    extract_all collab zipc listing prev = extract_all collab zipc listing prev'
    ∧ ∀ q c, (extract_all collab zipc listing prev).st.fs q = some c →
        ∃ a ∈ listing,
          (strEndsWith a ".msi" = true ∧ (q, c) ∈ (collab a).writes)
          ∨ (strEndsWith a ".vsix" = true ∧ ∃ ws, zipc a = .ok ws ∧ (q, c) ∈ ws) := by
  constructor
  · simp only [extract_all, clearExtracted_eq]
  · intro q c h
    simp only [extract_all, clearExtracted_eq] at h
    split at h
    · rename_i e heq
      rcases runMsis_fs_inv collab _ _ q c h with h1 | ⟨a, ha, hw⟩
      · simp [fsEmpty] at h1
      · have hf := List.mem_filter.mp ha
        exact ⟨a, hf.1, Or.inl ⟨hf.2, hw⟩⟩
    · rename_i heq
      rcases runVsixes_fs_inv zipc _ _ q c h with h1 | ⟨a, ha, ws, hz, hw⟩
      · rcases runMsis_fs_inv collab _ _ q c h1 with h2 | ⟨a, ha, hw⟩
        · simp [fsEmpty] at h2
        · have hf := List.mem_filter.mp ha
          exact ⟨a, hf.1, Or.inl ⟨hf.2, hw⟩⟩
      · have hf := List.mem_filter.mp ha
        exact ⟨a, hf.1, Or.inr ⟨hf.2, ws, hz, hw⟩⟩

def wCollabMsi : String → MsiRun := fun _ => ⟨0, "", [("f.h", "x")]⟩
def wZip : String → ZipRun := fun _ => .ok []
def wSeedFs : FS := FS.set fsEmpty "seed.txt" (some "s")

/-- C7 (witness): a pre-seeded extracted directory yields the same result as
a missing one, and the file found afterwards comes from the current archive
set. -/
theorem extract_all_rebuilds_witness :
    extract_all wCollabMsi wZip ["a.msi"] (some wSeedFs)
      = extract_all wCollabMsi wZip ["a.msi"] none
    ∧ ∃ a ∈ ["a.msi"],
        (strEndsWith a ".msi" = true ∧ (("f.h" : String), ("x" : String)) ∈ (wCollabMsi a).writes)
        ∨ (strEndsWith a ".vsix" = true ∧ ∃ ws, wZip a = .ok ws ∧ ("f.h", "x") ∈ ws) := by
  have h := extract_all_rebuilds_from_scratch wCollabMsi wZip ["a.msi"] (some wSeedFs) none
  exact ⟨h.1, h.2 "f.h" "x" (by decide)⟩

/-- C8 (amended): an installer extraction whose collaborator exits with a
nonzero status raises `CalledProcessError` and aborts the run with no
subsequent archive extracted; but a collaborator that reports success while
emitting diagnostic output on its error channel is only reported in the log
(`Failed! msiextract stderr`) — the run continues and completes. -/
theorem extract_all_fatal_only_on_exit_code (collab : String → MsiRun)
    (zipc : String → ZipRun) (listing : List String) (prev : Option FS) :
    (∀ (pre post : List String) (a : String),
      listing.filter (fun s => strEndsWith s ".msi") = pre ++ a :: post →
      (∀ b ∈ pre, (collab b).exitCode = 0) →
      (collab a).exitCode ≠ 0 →
      (extract_all collab zipc listing prev).err = some (.calledProcessError a)
      ∧ (extract_all collab zipc listing prev).st.trace = pre.map ExtEvent.msi)
    ∧ ((∀ b ∈ listing.filter (fun s => strEndsWith s ".msi"), (collab b).exitCode = 0) →
      (∀ v ∈ listing.filter (fun s => strEndsWith s ".vsix"), (zipc v).isOk = true) →
      (extract_all collab zipc listing prev).err = none
      ∧ (extract_all collab zipc listing prev).st.failedLogs
          = (listing.filter fun s => strEndsWith s ".msi").filter
              (fun b => decide ((collab b).stderr ≠ ""))) := by
  constructor
  · intro pre post a hsplit hpre hfail
    obtain ⟨ra, rb⟩ := runMsis_abort collab pre a post ⟨clearExtracted prev, [], []⟩ hpre hfail
    constructor
    · simp only [extract_all]
      rw [hsplit, ra]
    · simp only [extract_all]
      rw [hsplit, ra]
      simpa using rb
  · intro hall hz
    obtain ⟨ra, _, rc, _⟩ := runMsis_all_ok collab _ ⟨clearExtracted prev, [], []⟩ hall
    obtain ⟨va, _, vc⟩ := runVsixes_all_ok zipc _
      (runMsis collab (listing.filter fun s => strEndsWith s ".msi")
        ⟨clearExtracted prev, [], []⟩).st hz
    constructor
    · simp only [extract_all]
      rw [ra]
      exact va
    · simp only [extract_all]
      rw [ra]
      show (runVsixes zipc (listing.filter fun s => strEndsWith s ".vsix")
          (runMsis collab (listing.filter fun s => strEndsWith s ".msi")
            ⟨clearExtracted prev, [], []⟩).st).st.failedLogs = _
      rw [vc, rc]
      simp

def c8Collab : String → MsiRun :=
  fun m => if m = "a.msi" then ⟨0, "some error text", []⟩ else ⟨0, "", []⟩

/-- C8 (counterexample): the collaborator reports success for `a.msi` but
emits diagnostic output on its error channel; the run does not abort — it
reports the failure and still extracts the subsequent archive `b.msi`. -/
theorem extract_msi_stderr_not_fatal :
    (c8Collab "a.msi").exitCode = 0
    ∧ (c8Collab "a.msi").stderr ≠ ""
    ∧ (extract_all c8Collab wZip ["a.msi", "b.msi"] none).err = none
    ∧ (extract_all c8Collab wZip ["a.msi", "b.msi"] none).st.trace
        = [.msi "a.msi", .msi "b.msi"]
    ∧ (extract_all c8Collab wZip ["a.msi", "b.msi"] none).st.failedLogs = ["a.msi"] := by
  decide

def c8FailCollab : String → MsiRun :=
  fun m => if m = "bad.msi" then ⟨1, "", []⟩ else ⟨0, "warn", []⟩

/-- C8 (witness): a nonzero collaborator exit status aborts the run right
after the preceding archives, while a run of success-status archives with
stderr output completes and logs them. -/
theorem extract_all_fatal_only_on_exit_code_witness :
    ((extract_all c8FailCollab wZip ["ok.msi", "bad.msi", "later.msi"] none).err
        = some (.calledProcessError "bad.msi")
      ∧ (extract_all c8FailCollab wZip ["ok.msi", "bad.msi", "later.msi"] none).st.trace
        = (["ok.msi"] : List String).map ExtEvent.msi)
    ∧ ((extract_all c8FailCollab wZip ["x.msi"] none).err = none
      ∧ (extract_all c8FailCollab wZip ["x.msi"] none).st.failedLogs
        = ((["x.msi"] : List String).filter fun s => strEndsWith s ".msi").filter
            (fun b => decide ((c8FailCollab b).stderr ≠ ""))) := by
  constructor
  · exact (extract_all_fatal_only_on_exit_code c8FailCollab wZip
      ["ok.msi", "bad.msi", "later.msi"] none).1
      ["ok.msi"] ["later.msi"] "bad.msi" (by decide) (by decide) (by decide)
  · exact (extract_all_fatal_only_on_exit_code c8FailCollab wZip ["x.msi"] none).2
      (by decide) (by decide)

/-- C9: `extract_all` selects its inputs purely from the recursive listing
of the persistent download directory: every listed path whose name ends in
`.msi` or `.vsix` — whether or not it was downloaded in the current run —
is extracted, and every installer-archive extraction precedes every
extension-archive extraction. -/
theorem extract_all_order_msi_before_vsix (collab : String → MsiRun)
    (zipc : String → ZipRun) (listing : List String) (prev : Option FS)
    (hm : ∀ b ∈ listing.filter (fun s => strEndsWith s ".msi"), (collab b).exitCode = 0)
    (hz : ∀ v ∈ listing.filter (fun s => strEndsWith s ".vsix"), (zipc v).isOk = true) :
    (extract_all collab zipc listing prev).err = none
    ∧ (extract_all collab zipc listing prev).st.trace
        = (listing.filter fun s => strEndsWith s ".msi").map ExtEvent.msi
          ++ (listing.filter fun s => strEndsWith s ".vsix").map ExtEvent.vsix := by
  obtain ⟨ra, rb, _, _⟩ := runMsis_all_ok collab _ ⟨clearExtracted prev, [], []⟩ hm
  obtain ⟨va, vb, _⟩ := runVsixes_all_ok zipc _
    (runMsis collab (listing.filter fun s => strEndsWith s ".msi")
      ⟨clearExtracted prev, [], []⟩).st hz
  constructor
  · simp only [extract_all]
    rw [ra]
    exact va
  · simp only [extract_all]
    rw [ra]
    show (runVsixes zipc (listing.filter fun s => strEndsWith s ".vsix")
        (runMsis collab (listing.filter fun s => strEndsWith s ".msi")
          ⟨clearExtracted prev, [], []⟩).st).st.trace = _
    rw [vb, rb]
    simp

/-- C9 (witness): a nested cached installer archive and a top-level
extension archive are both extracted, installer first, and the unrelated
file is skipped. -/
theorem extract_all_order_witness :
    (extract_all wCollabMsi wZip ["sub/old.msi", "new.vsix", "skip.txt"] none).err = none
    ∧ (extract_all wCollabMsi wZip ["sub/old.msi", "new.vsix", "skip.txt"] none).st.trace
        = ((["sub/old.msi", "new.vsix", "skip.txt"] : List String).filter
            fun s => strEndsWith s ".msi").map ExtEvent.msi
          ++ ((["sub/old.msi", "new.vsix", "skip.txt"] : List String).filter
            fun s => strEndsWith s ".vsix").map ExtEvent.vsix :=
  extract_all_order_msi_before_vsix wCollabMsi wZip ["sub/old.msi", "new.vsix", "skip.txt"]
    none (by decide) (by decide)
